import Mathlib

/-!
Verification of the SQL log formatter of express-enhanced-logger
(src/sqlFormatter.ts), shallowly embedded over List Char / String.

The embedding fixes enableColors = false (chalk at level 0 is the identity
on strings, and the test suite mocks every chalk function to the identity),
so dim / bold / cyan wrappers are identities and keyword highlighting is the
identity transformation on the query text.  JSON numbers are modelled as
integers: no claim exercises non-integer numbers, and floating point is out
of scope of the shallow embedding.
-/

namespace SqlFmt

/-! ### Character classes -/

/-- JS whitespace as used by RegExp \s, String.trim and JSON for the
characters relevant here. -/
def isJsSpace (c : Char) : Bool :=
  c = ' ' || c = '\t' || c = '\n' || c = '\r' || c = '\x0b' || c = '\x0c'

/-- First character of a (case-insensitive) IN keyword. -/
def isInI (c : Char) : Bool := c = 'I' || c = 'i'

/-- Second character of a (case-insensitive) IN keyword. -/
def isInN (c : Char) : Bool := c = 'N' || c = 'n'

/-- JS RegExp word character [A-Za-z0-9_], for the \b word boundary. -/
def isWordChar (c : Char) : Bool :=
  ('A' ≤ c && c ≤ 'Z') || ('a' ≤ c && c ≤ 'z') || ('0' ≤ c && c ≤ '9') || c = '_'

/-! ### Small string utilities -/

/-- JS String.trim on a character list. -/
def trimL (l : List Char) : List Char :=
  ((l.dropWhile isJsSpace).reverse.dropWhile isJsSpace).reverse

/-- JS String.trim. -/
def trimS (s : String) : String := String.mk (trimL s.data)

/-- JS String.split with separator "," : always returns at least one piece;
pieces contain no comma. -/
def splitOnCommaL : List Char → List (List Char)
  | [] => [[]]
  | c :: cs =>
    if c = ',' then [] :: splitOnCommaL cs
    else
      match splitOnCommaL cs with
      | [] => [[c]]
      | h :: t => (c :: h) :: t

/-- JS Array.join(",") over character lists. -/
def joinCommaL : List (List Char) → List Char
  | [] => []
  | [x] => x
  | x :: y :: ys => x ++ ',' :: joinCommaL (y :: ys)

/-- Decimal digit character (n < 10 expected). -/
def digitChar (n : Nat) : Char :=
  if n = 0 then '0' else if n = 1 then '1' else if n = 2 then '2'
  else if n = 3 then '3' else if n = 4 then '4' else if n = 5 then '5'
  else if n = 6 then '6' else if n = 7 then '7' else if n = 8 then '8' else '9'

/-- Decimal rendering of a Nat, accumulator form (fuelled). -/
def natToCharsAux : Nat → Nat → List Char → List Char
  | 0, _, acc => acc
  | fuel + 1, n, acc =>
    if n < 10 then digitChar n :: acc
    else natToCharsAux fuel (n / 10) (digitChar (n % 10) :: acc)

/-- Decimal rendering of a Nat, as JS template interpolation renders a
nonnegative integer number. -/
def natToChars (n : Nat) : List Char := natToCharsAux (n + 1) n []

/-- Decimal rendering of an Int, as JS String(n) renders an integer. -/
def intToChars (n : Int) : List Char :=
  if n < 0 then '-' :: natToChars n.natAbs else natToChars n.natAbs

/-! ### JSON values -/

/-- JSON values as produced by JSON.parse; numbers restricted to integers. -/
inductive JsonValue where
  | str : String → JsonValue
  | num : Int → JsonValue
  | bool : Bool → JsonValue
  | null : JsonValue
  | arr : List JsonValue → JsonValue
  | obj : List (String × JsonValue) → JsonValue
deriving Repr, BEq

/-- Primitive test used by formatParamValue (string, number, boolean, null). -/
def JsonValue.isPrimitive : JsonValue → Bool
  | .str _ => true
  | .num _ => true
  | .bool _ => true
  | .null => true
  | _ => false

/-- JS truthiness of a parsed JSON value (null, false, 0 and "" are falsy). -/
def jsTruthy : JsonValue → Bool
  | .null => false
  | .bool b => b
  | .num n => !(n = 0)
  | .str s => !(s = "")
  | .arr _ => true
  | .obj _ => true

/-- Array.isArray guard of formatSqlQuery: array elements, else empty. -/
def asArray : JsonValue → List JsonValue
  | .arr xs => xs
  | _ => []

/-! ### The IN-clause scanner of smartTruncateQuery

The JS code matches the regex IN\s*\(([^)]+)\) globally and
case-insensitively.  The regex is deterministic (greedy \s* must end at a
non-space which has to be the paren; greedy [^)]+ must end at the first
closing paren), so a left-to-right scan that, at each position, attempts
exactly that shape is a faithful model of both String.match and
String.replace with this pattern. -/

/-- Attempt to match IN\s*\(([^)]+)\) at the head of the list.  On success
returns (whole match, parenthesized body, remaining input). -/
def tryInMatch : List Char → Option (List Char × List Char × List Char)
  | c1 :: c2 :: r =>
    if isInI c1 && isInN c2 then
      let ws := r.takeWhile isJsSpace
      match r.dropWhile isJsSpace with
      | '(' :: r2 =>
        let body := r2.takeWhile (fun c => c != ')')
        match r2.dropWhile (fun c => c != ')') with
        | ')' :: r3 =>
          if body.isEmpty then none
          else some (c1 :: c2 :: (ws ++ '(' :: (body ++ [')'])), body, r3)
        | _ => none
      | _ => none
    else none
  | _ => none

/-- The replacement applied to each matched IN clause by smartTruncateQuery
(showCount = 3, PARAM_THRESHOLD = 10, dim = identity with colors off). -/
def truncRepl (orig body : List Char) : List Char :=
  let params := (splitOnCommaL body).map trimL
  if params.length ≤ 10 then orig
  else
    ('I' :: 'N' :: ' ' :: '(' ::
      (joinCommaL (params.take 3) ++
       ((",...".data ++ natToChars (params.length - 6) ++ (" more...,".data)) ++
        (joinCommaL (params.drop (params.length - 3)) ++ [')']))))

/-- One global-replace pass of the IN-clause pattern (fuelled). -/
def scanReplaceF : Nat → List Char → List Char
  | 0, l => l
  | _, [] => []
  | fuel + 1, c :: cs =>
    match tryInMatch (c :: cs) with
    | some (o, b, r) => truncRepl o b ++ scanReplaceF fuel r
    | none => c :: scanReplaceF fuel cs

/-- One global-replace pass of the IN-clause pattern, as
query.replace(inClausePattern, truncate) performs it. -/
def scanReplace (l : List Char) : List Char := scanReplaceF l.length l

/-- All matches of the IN-clause pattern (fuelled), as query.match returns
them. -/
def scanMatchesF : Nat → List Char → List (List Char)
  | 0, _ => []
  | _, [] => []
  | fuel + 1, c :: cs =>
    match tryInMatch (c :: cs) with
    | some (o, _, r) => o :: scanMatchesF fuel r
    | none => scanMatchesF fuel cs

/-- All matches of the IN-clause pattern. -/
def scanMatches (l : List Char) : List (List Char) := scanMatchesF l.length l

/-- smartTruncateQuery of sqlFormatter.ts (colors off): return the query
unchanged unless some IN clause has at least PARAM_THRESHOLD - 1 = 9 commas,
otherwise run the global replace that truncates every IN clause with more
than 10 comma-separated items. -/
def smartTruncateQueryL (query : List Char) : List Char :=
  let ms := scanMatches query
  if ms.isEmpty then query
  else if ms.any (fun m => 9 ≤ m.count ',') then scanReplace query
  else query

/-- smartTruncateQuery on strings. -/
def smartTruncateQuery (query : String) : String :=
  String.mk (smartTruncateQueryL query.data)

/-! ### JSON.parse model

A standard JSON parser over characters, fuelled by recursion depth.
Numbers are restricted to optionally signed integer literals (JSON's
leading-zero rule included); no claim exercises fractional or exponent
literals.  Returns none where JSON.parse throws. -/

/-- JSON interelement whitespace. -/
def isJsonWs (c : Char) : Bool :=
  c = ' ' || c = '\t' || c = '\n' || c = '\r'

/-- Numeric value of one hexadecimal digit, by character code: digits are
codes 48-57, lowercase letters 97-102, uppercase 65-70. -/
def hexDigitVal (c : Char) : Option Nat :=
  let n := c.toNat
  if 48 ≤ n && n ≤ 57 then some (n - 48)
  else if 97 ≤ n && n ≤ 102 then some (n - 87)
  else if 65 ≤ n && n ≤ 70 then some (n - 55)
  else none

/-- Parse the remainder of a JSON string literal (after the opening quote),
fuelled by the input length. -/
def parseJsonStringF : Nat → List Char → Option (List Char × List Char)
  | 0, _ => none
  | _, [] => none
  | fuel + 1, c :: rest =>
    if c = '"' then some ([], rest)
    else if c = '\\' then
      match rest with
      | [] => none
      | e :: rest2 =>
        let cont (d : Char) (r : List Char) : Option (List Char × List Char) :=
          match parseJsonStringF fuel r with
          | some (s, r2) => some (d :: s, r2)
          | none => none
        if e = '"' then cont '"' rest2
        else if e = '\\' then cont '\\' rest2
        else if e = '/' then cont '/' rest2
        else if e = 'b' then cont '\x08' rest2
        else if e = 'f' then cont '\x0c' rest2
        else if e = 'n' then cont '\n' rest2
        else if e = 'r' then cont '\r' rest2
        else if e = 't' then cont '\t' rest2
        else if e = 'u' then
          match rest2 with
          | h1 :: h2 :: h3 :: h4 :: rest3 =>
            match hexDigitVal h1, hexDigitVal h2, hexDigitVal h3, hexDigitVal h4 with
            | some a, some b, some x, some y =>
              cont (Char.ofNat (((a * 16 + b) * 16 + x) * 16 + y)) rest3
            | _, _, _, _ => none
          | _ => none
        else none
    else if c.toNat < 0x20 then none
    else
      match parseJsonStringF fuel rest with
      | some (s, r2) => some (c :: s, r2)
      | none => none

/-- Parse a JSON integer literal (digits after an optional minus handled by
the caller), enforcing JSON's no-leading-zero rule. -/
def parseJsonDigits (l : List Char) : Option (Nat × List Char) :=
  let digits := l.takeWhile (fun c => c.isDigit)
  let rest := l.dropWhile (fun c => c.isDigit)
  match digits with
  | [] => none
  | d :: ds =>
    if d = '0' && !ds.isEmpty then none
    else
      some (digits.foldl (fun acc c => acc * 10 + (c.toNat - '0'.toNat)) 0, rest)

/-- Consume an expected literal keyword tail, character by character. -/
def stripChars : List Char → List Char → Option (List Char)
  | [], l => some l
  | e :: es, c :: l => if c = e then stripChars es l else none
  | _ :: _, [] => none

/-- A number literal followed by a fraction or exponent marker: outside the
integer fragment modelled here (JSON.parse would accept it; the model
rejects it, see the section comment). -/
def looksLikeFraction (l : List Char) : Bool :=
  match l with
  | c :: _ => c = '.' || c = 'e' || c = 'E'
  | [] => false

mutual

/-- Parse a JSON value at the head of the input (leading whitespace
skipped), returning the value and the remaining input. -/
def parseJsonValueF : Nat → List Char → Option (JsonValue × List Char)
  | 0, _ => none
  | fuel + 1, l =>
    match l.dropWhile isJsonWs with
    | [] => none
    | c :: rest =>
      if c = 'n' then
        match stripChars (("ull").data) rest with
        | some r => some (.null, r)
        | none => none
      else if c = 't' then
        match stripChars (("rue").data) rest with
        | some r => some (.bool true, r)
        | none => none
      else if c = 'f' then
        match stripChars (("alse").data) rest with
        | some r => some (.bool false, r)
        | none => none
      else if c = '"' then
        match parseJsonStringF (rest.length + 1) rest with
        | some (s, r) => some (.str (String.mk s), r)
        | none => none
      else if c = '-' then
        match parseJsonDigits rest with
        | some (n, r) => if looksLikeFraction r then none else some (.num (-(n : Int)), r)
        | none => none
      else if c.isDigit then
        match parseJsonDigits (c :: rest) with
        | some (n, r) => if looksLikeFraction r then none else some (.num (n : Int), r)
        | none => none
      else if c = '[' then
        match rest.dropWhile isJsonWs with
        | ']' :: r => some (.arr [], r)
        | _ =>
          match parseJsonArrayF fuel rest with
          | some (xs, r) => some (.arr xs, r)
          | none => none
      else if c = '\x7b' then
        match rest.dropWhile isJsonWs with
        | '\x7d' :: r => some (.obj [], r)
        | _ =>
          match parseJsonObjectF fuel rest with
          | some (kvs, r) => some (.obj kvs, r)
          | none => none
      else none

/-- Parse the elements of a nonempty JSON array (after the opening
bracket). -/
def parseJsonArrayF : Nat → List Char → Option (List JsonValue × List Char)
  | 0, _ => none
  | fuel + 1, l =>
    match parseJsonValueF fuel l with
    | none => none
    | some (v, r) =>
      match r.dropWhile isJsonWs with
      | ',' :: r2 =>
        match parseJsonArrayF fuel r2 with
        | some (xs, r3) => some (v :: xs, r3)
        | none => none
      | ']' :: r2 => some ([v], r2)
      | _ => none

/-- Parse the members of a nonempty JSON object (after the opening
brace). -/
def parseJsonObjectF : Nat → List Char → Option (List (String × JsonValue) × List Char)
  | 0, _ => none
  | fuel + 1, l =>
    match l.dropWhile isJsonWs with
    | '"' :: rest =>
      match parseJsonStringF (rest.length + 1) rest with
      | none => none
      | some (k, r) =>
        match r.dropWhile isJsonWs with
        | ':' :: r2 =>
          match parseJsonValueF fuel r2 with
          | none => none
          | some (v, r3) =>
            match r3.dropWhile isJsonWs with
            | ',' :: r4 =>
              match parseJsonObjectF fuel r4 with
              | some (kvs, r5) => some ((String.mk k, v) :: kvs, r5)
              | none => none
            | '\x7d' :: r4 => some ([(String.mk k, v)], r4)
            | _ => none
        | _ => none
    | _ => none

end

/-- JSON.parse: a single value followed only by whitespace. -/
def jsonParse (s : String) : Option JsonValue :=
  match parseJsonValueF (s.data.length + 1) s.data with
  | some (v, rest) => if (rest.dropWhile isJsonWs).isEmpty then some v else none
  | none => none

/-! ### parseQueryParams and its fallback chain -/

/-- Scan step of params.replace with the pattern (start-or-non-backslash
followed by a double quote) that inserts a backslash before the quote. -/
def sanitizeQuotesGo : List Char → List Char
  | [] => []
  | c :: '"' :: rest =>
    if c = '\\' then c :: sanitizeQuotesGo ('"' :: rest)
    else c :: '\\' :: '"' :: sanitizeQuotesGo rest
  | c :: rest => c :: sanitizeQuotesGo rest

/-- The quote-sanitizing replace of parseQueryParams: a quote at the very
start, or any quote preceded by a non-backslash, gains a backslash. -/
def sanitizeQuotes (s : String) : String :=
  match s.data with
  | '"' :: rest => String.mk ('\\' :: '"' :: sanitizeQuotesGo rest)
  | l => String.mk (sanitizeQuotesGo l)

/-- Element splitting loop of manualParseArray: tracks quote state and
backslash-escape state, splitting on commas outside quotes; pushes the
trimmed element at each splitting comma, and the final element only when
its trim is nonempty. -/
def manualSplitGo : List Char → Bool → Bool → List Char → List (List Char) →
    List (List Char)
  | [], _, _, current, elements =>
    if (trimL current).isEmpty then elements.reverse
    else (trimL current :: elements).reverse
  | ch :: rest, inQuotes, escapeNext, current, elements =>
    if escapeNext then manualSplitGo rest inQuotes false (current ++ [ch]) elements
    else if ch = '\\' then manualSplitGo rest inQuotes true (current ++ [ch]) elements
    else if ch = '"' then manualSplitGo rest (!inQuotes) false (current ++ [ch]) elements
    else if ch = ',' && !inQuotes then
      manualSplitGo rest inQuotes false [] (trimL current :: elements)
    else manualSplitGo rest inQuotes false (current ++ [ch]) elements

/-- Per-element decoding of manualParseArray: trim, strip a full quote
wrapper, else JSON-decode, else keep the raw string. -/
def manualParseElement (el : List Char) : JsonValue :=
  let t := trimL el
  if t.head? = some '"' && t.getLast? = some '"' then
    .str (String.mk ((t.drop 1).dropLast))
  else
    match jsonParse (String.mk t) with
    | some v => v
    | none => .str (String.mk t)

/-- manualParseArray of sqlFormatter.ts: strip the outer brackets, trim,
split on unquoted commas, decode each element. -/
def manualParseArray (params : String) : Option JsonValue :=
  let content := trimL ((params.data.drop 1).dropLast)
  if content.isEmpty then some (.arr [])
  else some (.arr ((manualSplitGo content false false [] []).map manualParseElement))

/-- parseQueryParams of sqlFormatter.ts: direct JSON decode (decoding a
second time when the first decode yields a string), then the
quote-sanitized decode for bracket-delimited input, then the manual
tokenizer; none models the null / thrown-and-caught outcomes. -/
def parseQueryParams (params : String) : Option JsonValue :=
  let direct : Option JsonValue :=
    match jsonParse params with
    | some (.str s) => jsonParse s
    | some v => some v
    | none => none
  match direct with
  | some v => some v
  | none =>
    if params.data.head? = some '[' && params.data.getLast? = some ']' then
      match jsonParse (sanitizeQuotes params) with
      | some v => some v
      | none => manualParseArray params
    else none

/-! ### Parameter value rendering -/

/-- A single quote character (code 39). -/
def squote : Char := Char.ofNat 39

mutual

/-- JS Array.prototype.join(",") element conversion: null becomes the
empty string, nested arrays join recursively, objects print as
[object Object]. -/
def jsArrayElem : JsonValue → List Char
  | .null => []
  | .str s => s.data
  | .num n => intToChars n
  | .bool b => if b then ("true").data else ("false").data
  | .arr xs => jsJoinComma xs
  | .obj _ => ("[object Object]").data

/-- JS Array.prototype.join(",") over the elements. -/
def jsJoinComma : List JsonValue → List Char
  | [] => []
  | [x] => jsArrayElem x
  | x :: y :: ys => jsArrayElem x ++ ',' :: jsJoinComma (y :: ys)

end

/-- JS String(v) for a parsed JSON value. -/
def jsToString : JsonValue → List Char
  | .null => ("null").data
  | .str s => s.data
  | .num n => intToChars n
  | .bool b => if b then ("true").data else ("false").data
  | .arr xs => jsJoinComma xs
  | .obj _ => ("[object Object]").data

/-- Lowercase hexadecimal digit character: letter codes start at 87 + 10. -/
def hexChar (n : Nat) : Char :=
  if 10 ≤ n then Char.ofNat (87 + n) else digitChar n

/-- JSON.stringify escaping of one string character. -/
def jsonEscape (c : Char) : List Char :=
  if c = '"' then ['\\', '"']
  else if c = '\\' then ['\\', '\\']
  else if c = '\n' then ['\\', 'n']
  else if c = '\r' then ['\\', 'r']
  else if c = '\t' then ['\\', 't']
  else if c = '\x08' then ['\\', 'b']
  else if c = '\x0c' then ['\\', 'f']
  else if c.toNat < 0x20 then
    ['\\', 'u', '0', '0', hexChar (c.toNat / 16), hexChar (c.toNat % 16)]
  else [c]

/-- JSON.stringify of a string, quotes included. -/
def stringifyStr (s : String) : List Char :=
  '"' :: ((s.data.map jsonEscape).flatten ++ ['"'])

mutual

/-- JSON.stringify of a value (no indentation). -/
def stringifyJson : JsonValue → List Char
  | .str s => stringifyStr s
  | .num n => intToChars n
  | .bool b => if b then ("true").data else ("false").data
  | .null => ("null").data
  | .arr xs => '[' :: (stringifyArr xs ++ [']'])
  | .obj kvs => '\x7b' :: (stringifyObj kvs ++ ['\x7d'])

/-- JSON.stringify of array elements, comma separated. -/
def stringifyArr : List JsonValue → List Char
  | [] => []
  | [x] => stringifyJson x
  | x :: y :: ys => stringifyJson x ++ ',' :: stringifyArr (y :: ys)

/-- JSON.stringify of object members, comma separated. -/
def stringifyObj : List (String × JsonValue) → List Char
  | [] => []
  | [(k, v)] => stringifyStr k ++ ':' :: stringifyJson v
  | (k, v) :: e :: es => (stringifyStr k ++ ':' :: stringifyJson v) ++ ',' :: stringifyObj (e :: es)

end

/-! ### Configuration and truncateForLog -/

/-- The configuration fields the formatter reads, with the defaults
createSqlFormatter and createTruncateForLog apply.  The custom formatter
returns in Except so that an exception it throws is observable as an error
value; the built-in pipeline itself never produces an error. -/
structure SqlFormatterConfig where
  customQueryFormatter : Option (String → String → Except String String) := none
  maxStringLength : Nat := 100
  maxArrayLength : Nat := 5
  maxObjectKeys : Nat := 20

/-- JS arr.slice(-n): for n = 0 this is the whole array, not the empty
one. -/
def jsSliceLast (n : Nat) (xs : List JsonValue) : List JsonValue :=
  if n = 0 then xs else xs.drop (xs.length - n)

/-- JS entries.slice(-n) for object entries. -/
def jsSliceLastKV (n : Nat) (xs : List (String × JsonValue)) :
    List (String × JsonValue) :=
  if n = 0 then xs else xs.drop (xs.length - n)

/-- truncateForLog of utils.ts, fuelled: the depth guard (depth > 3) bounds
the recursion, so fuel 4 at depth 0 never runs out. -/
def truncateForLogD (cfg : SqlFormatterConfig) (fuel depth : Nat) (v : JsonValue) :
    JsonValue :=
  if 3 < depth then .str ("[Nested Object]")
  else
    match fuel, v with
    | fuel + 1, .arr xs =>
      if xs.length ≤ cfg.maxArrayLength then
        .arr (xs.map (truncateForLogD cfg fuel (depth + 1)))
      else
        let itemsToShow := cfg.maxArrayLength / 2
        let firstItems := (xs.take itemsToShow).map (truncateForLogD cfg fuel (depth + 1))
        let lastItems := (jsSliceLast itemsToShow xs).map (truncateForLogD cfg fuel (depth + 1))
        .arr (firstItems ++
          .str (String.mk (("[...").data ++ natToChars (xs.length - cfg.maxArrayLength) ++
            (" more items...]").data)) :: lastItems)
    | _ + 1, .str s =>
      if cfg.maxStringLength < s.length then
        .str (String.mk (s.data.take cfg.maxStringLength ++ ("...").data))
      else .str s
    | fuel + 1, .obj kvs =>
      if kvs.length ≤ cfg.maxObjectKeys then
        .obj (kvs.map (fun kv => (kv.1, truncateForLogD cfg fuel (depth + 1) kv.2)))
      else
        let keysToShow := cfg.maxObjectKeys / 2
        let firstEntries := (kvs.take keysToShow).map
          (fun kv => (kv.1, truncateForLogD cfg fuel (depth + 1) kv.2))
        let lastEntries := (jsSliceLastKV keysToShow kvs).map
          (fun kv => (kv.1, truncateForLogD cfg fuel (depth + 1) kv.2))
        .obj ((firstEntries ++ lastEntries) ++
          [(("__truncated"),
            .str (String.mk (("[...").data ++ natToChars (kvs.length - cfg.maxObjectKeys) ++
              (" more properties...]").data)))])
    | _, v => v

/-- truncateForLog entry point (depth 0). -/
def truncateForLog (cfg : SqlFormatterConfig) (v : JsonValue) : JsonValue :=
  truncateForLogD cfg 4 0 v

/-! ### formatArrayForSql and formatParamValue -/

/-- formatArrayForSql of sqlFormatter.ts (MAX_INLINE_ITEMS = 10,
halfShow = 5, dim = identity with colors off). -/
def formatArrayForSql (arr : List JsonValue) : List Char :=
  if arr.length ≤ 10 then jsJoinComma arr
  else
    jsJoinComma (arr.take 5) ++
    (((",...").data ++ natToChars (arr.length - 10) ++ (" more...").data) ++
     (',' :: jsJoinComma (arr.drop (arr.length - 5))))

/-- formatParamValue of sqlFormatter.ts (bold = identity with colors
off). -/
def formatParamValue (cfg : SqlFormatterConfig) (param : JsonValue) : List Char :=
  match param with
  | .arr xs =>
    if xs.all JsonValue.isPrimitive && 10 < xs.length then formatArrayForSql xs
    else stringifyJson (truncateForLog cfg (.arr xs))
  | .str s =>
    if cfg.maxStringLength < s.length then
      squote :: (s.data.take cfg.maxStringLength ++ ('.' :: '.' :: '.' :: [squote]))
    else squote :: (s.data ++ [squote])
  | .obj kvs => stringifyJson (truncateForLog cfg (.obj kvs))
  | v => jsToString v

/-! ### Placeholder replacement -/

/-- The \b word-boundary test after a placeholder (placeholders end in a
digit, so the boundary holds exactly when the next character is not a word
character, or at the end of input). -/
def boundaryOk : List Char → Bool
  | [] => true
  | c :: _ => !isWordChar c

/-- Global replace of a literal pattern followed by a word boundary
(fuelled).  The replacement text is spliced literally: no claim exercises
the special dollar sequences of JS String.replace replacement strings. -/
def replaceAllWBF : Nat → List Char → List Char → List Char → List Char
  | 0, _, _, l => l
  | _, _, _, [] => []
  | fuel + 1, pat, repl, c :: cs =>
    if pat.isPrefixOf (c :: cs) && boundaryOk ((c :: cs).drop pat.length) then
      repl ++ replaceAllWBF fuel pat repl ((c :: cs).drop pat.length)
    else c :: replaceAllWBF fuel pat repl cs

/-- Global word-boundary-safe replace. -/
def replaceAllWB (pat repl l : List Char) : List Char :=
  replaceAllWBF l.length pat repl l

/-- The forEach loop of replaceParamsInQuery: parameter i (0-indexed)
replaces @P(i+1) and then $(i+1). -/
def replaceParamsLoop (cfg : SqlFormatterConfig) :
    List Char → Nat → List JsonValue → List Char
  | q, _, [] => q
  | q, i, p :: rest =>
    let display := formatParamValue cfg p
    let q1 := replaceAllWB ('@' :: 'P' :: natToChars (i + 1)) display q
    let q2 := replaceAllWB ('$' :: natToChars (i + 1)) display q1
    replaceParamsLoop cfg q2 (i + 1) rest

/-- replaceParamsInQuery of sqlFormatter.ts. -/
def replaceParamsInQuery (cfg : SqlFormatterConfig) (query : List Char)
    (paramArray : List JsonValue) : List Char :=
  replaceParamsLoop cfg query 0 paramArray

/-! ### formatSqlQuery -/

/-- The non-custom pipeline of formatSqlQuery (colors off, so keyword
highlighting is the identity): substitute when the parameter string is
non-blank, parses, and parses to a truthy value (non-arrays substitute as
an empty parameter list), then smart-truncate. -/
def formatSqlQueryCore (cfg : SqlFormatterConfig) (query params : String) : String :=
  let formattedQuery : List Char :=
    if trimS params ≠ ("") then
      match parseQueryParams params with
      | none => query.data
      | some v =>
        if jsTruthy v then replaceParamsInQuery cfg query.data (asArray v)
        else query.data
    else query.data
  String.mk (smartTruncateQueryL formattedQuery)

/-- formatSqlQuery of sqlFormatter.ts: full bypass through the custom
formatter when configured (its errors propagate), otherwise the built-in
pipeline, which never errors. -/
def formatSqlQuery (cfg : SqlFormatterConfig) (query params : String) :
    Except String String :=
  match cfg.customQueryFormatter with
  | some f => f query params
  | none => .ok (formatSqlQueryCore cfg query params)


theorem dropWhile_length_le (p : Char → Bool) : ∀ l : List Char, (l.dropWhile p).length ≤ l.length
  | [] => Nat.le_refl _
  | c :: cs => by
    simp only [List.dropWhile]
    split
    · exact Nat.le_trans (dropWhile_length_le p cs) (by simp)
    · exact Nat.le_refl _

theorem mem_takeWhile_pred (p : Char → Bool) : ∀ (l : List Char) {x : Char}, x ∈ l.takeWhile p → p x = true
  | [], _, hx => by simp [List.takeWhile] at hx
  | c :: cs, x, hx => by
    simp only [List.takeWhile] at hx
    by_cases hc : p c
    · rw [hc] at hx
      simp at hx
      rcases hx with rfl | hx
      · exact hc
      · exact mem_takeWhile_pred p cs hx
    · simp [hc] at hx

theorem takeWhile_all_cons_append (p : Char → Bool) {xs : List Char} (c : Char) (ys : List Char)
    (h : ∀ x ∈ xs, p x = true) (hc : p c = false) :
    ((xs ++ c :: ys).takeWhile p) = xs := by
  induction xs with
  | nil => simp [List.takeWhile_cons, hc]
  | cons a as ih =>
    have ha : p a = true := h a (by simp)
    rw [List.cons_append, List.takeWhile_cons, ha]
    simp only [if_true]
    rw [ih (fun x hx => h x (by simp [hx]))]

theorem dropWhile_all_cons_append (p : Char → Bool) {xs : List Char} (c : Char) (ys : List Char)
    (h : ∀ x ∈ xs, p x = true) (hc : p c = false) :
    ((xs ++ c :: ys).dropWhile p) = c :: ys := by
  induction xs with
  | nil => simp [List.dropWhile_cons, hc]
  | cons a as ih =>
    have ha : p a = true := h a (by simp)
    rw [List.cons_append, List.dropWhile_cons, ha]
    simp only [if_true]
    exact ih (fun x hx => h x (by simp [hx]))

theorem tryInMatch_rest_length {l o b r : List Char}
    (h : tryInMatch l = some (o, b, r)) : r.length < l.length := by
  unfold tryInMatch at h
  split at h
  case h_2 => exact absurd h (by simp)
  case h_1 c1 c2 rest =>
    split at h
    case isFalse => exact absurd h (by simp)
    case isTrue hin =>
      split at h
      case h_2 => exact absurd h (by simp)
      case h_1 r2 hdw =>
        split at h
        case h_2 => exact absurd h (by simp)
        case h_1 r3 hdw2 =>
          dsimp only at h
          split at h
          case isTrue => exact absurd h (by simp)
          case isFalse hb =>
            simp only [Option.some.injEq, Prod.mk.injEq] at h
            obtain ⟨-, -, h3⟩ := h
            subst h3
            have l1 : r2.length ≤ rest.length - 1 := by
              have := dropWhile_length_le isJsSpace rest
              rw [hdw] at this; simp at this; omega
            have l2 : r3.length ≤ r2.length - 1 := by
              have := dropWhile_length_le (fun c => c != ')') r2
              rw [hdw2] at this; simp at this; omega
            simp; omega

theorem tryInMatch_inv {l o b r : List Char} (h : tryInMatch l = some (o, b, r)) :
    ∃ c1 c2 ws, isInI c1 = true ∧ isInN c2 = true ∧ (∀ w ∈ ws, isJsSpace w = true) ∧
      b ≠ [] ∧ (∀ x ∈ b, x ≠ ')') ∧
      o = c1 :: c2 :: (ws ++ '(' :: (b ++ [')'])) ∧ l = o ++ r := by
  unfold tryInMatch at h
  split at h
  case h_2 => exact absurd h (by simp)
  case h_1 c1 c2 rest =>
    split at h
    case isFalse => exact absurd h (by simp)
    case isTrue hin =>
      split at h
      case h_2 => exact absurd h (by simp)
      case h_1 r2 hdw =>
        split at h
        case h_2 => exact absurd h (by simp)
        case h_1 r3 hdw2 =>
          dsimp only at h
          split at h
          case isTrue => exact absurd h (by simp)
          case isFalse hbe =>
            simp only [Option.some.injEq, Prod.mk.injEq] at h
            obtain ⟨ho, hbb, h3⟩ := h
            subst h3
            refine ⟨c1, c2, rest.takeWhile isJsSpace, ?_, ?_, ?_, ?_, ?_, ?_, ?_⟩
            · have := hin; simp [Bool.and_eq_true] at this; exact this.1
            · have := hin; simp [Bool.and_eq_true] at this; exact this.2
            · exact fun w hw => mem_takeWhile_pred isJsSpace rest hw
            · rw [← hbb]; intro hnil; rw [hnil] at hbe; simp at hbe
            · rw [← hbb]
              intro x hx
              have := mem_takeWhile_pred (fun c => c != ')') r2 hx
              simpa using this
            · rw [← ho, ← hbb]
            · rw [← ho]
              have e1 : rest = rest.takeWhile isJsSpace ++ ('(' :: r2) := by
                rw [← hdw, List.takeWhile_append_dropWhile]
              have e2 : r2 = r2.takeWhile (fun c => c != ')') ++ (')' :: r3) := by
                rw [← hdw2, List.takeWhile_append_dropWhile]
              conv_lhs => rw [e1]
              conv_lhs => rw [e2]
              simp [List.append_assoc]

theorem tryInMatch_build {c1 c2 : Char} {ws b suffix : List Char}
    (h1 : isInI c1 = true) (h2 : isInN c2 = true)
    (hws : ∀ w ∈ ws, isJsSpace w = true)
    (hb : b ≠ []) (hbp : ∀ x ∈ b, x ≠ ')') :
    tryInMatch (c1 :: c2 :: (ws ++ '(' :: (b ++ ')' :: suffix))) =
      some (c1 :: c2 :: (ws ++ '(' :: (b ++ [')'])), b, suffix) := by
  have hbt : ∀ x ∈ b, (fun c => c != ')') x = true := by
    intro x hx; simpa using hbp x hx
  simp only [tryInMatch, h1, h2, Bool.and_self, if_true,
    takeWhile_all_cons_append isJsSpace '(' (b ++ ')' :: suffix) hws (by decide),
    dropWhile_all_cons_append isJsSpace '(' (b ++ ')' :: suffix) hws (by decide),
    takeWhile_all_cons_append (fun c => c != ')') ')' suffix hbt (by decide),
    dropWhile_all_cons_append (fun c => c != ')') ')' suffix hbt (by decide)]
  simp [List.isEmpty_iff, hb]


theorem tryInMatch_none_of_not_inI {c : Char} (h : isInI c = false) (cs : List Char) :
    tryInMatch (c :: cs) = none := by
  match cs with
  | [] => rfl
  | d :: rest => simp [tryInMatch, h]

theorem tryInMatch_none_of_not_inN {c d : Char} (h : isInN d = false) (cs : List Char) :
    tryInMatch (c :: d :: cs) = none := by
  simp [tryInMatch, h]

theorem scanReplaceF_congr : ∀ (f1 f2 : Nat) (l : List Char),
    l.length ≤ f1 → l.length ≤ f2 → scanReplaceF f1 l = scanReplaceF f2 l := by
  intro f1
  induction f1 with
  | zero =>
    intro f2 l h1 _
    have : l = [] := List.eq_nil_of_length_eq_zero (Nat.le_zero.mp h1)
    subst this
    cases f2 <;> rfl
  | succ f ih =>
    intro f2 l h1 h2
    match l with
    | [] => cases f2 <;> rfl
    | c :: cs =>
      match f2 with
      | 0 => simp at h2
      | g + 1 =>
        simp only [scanReplaceF]
        match hm : tryInMatch (c :: cs) with
        | some (o, b, r) =>
          have hr := tryInMatch_rest_length hm
          simp only [List.length_cons] at h1 h2 hr
          dsimp only
          rw [ih g r (by omega) (by omega)]
        | none =>
          simp only [List.length_cons] at h1 h2
          dsimp only
          rw [ih g cs (by omega) (by omega)]

theorem scanReplace_cons_some {c : Char} {cs o b r : List Char}
    (h : tryInMatch (c :: cs) = some (o, b, r)) :
    scanReplace (c :: cs) = truncRepl o b ++ scanReplace r := by
  have hr := tryInMatch_rest_length h
  simp only [List.length_cons] at hr
  unfold scanReplace
  simp only [List.length_cons, scanReplaceF, h]
  rw [scanReplaceF_congr cs.length r.length r (by omega) (by omega)]

theorem scanReplace_cons_none {c : Char} {cs : List Char}
    (h : tryInMatch (c :: cs) = none) :
    scanReplace (c :: cs) = c :: scanReplace cs := by
  unfold scanReplace
  simp only [List.length_cons, scanReplaceF, h]

theorem scanMatchesF_congr : ∀ (f1 f2 : Nat) (l : List Char),
    l.length ≤ f1 → l.length ≤ f2 → scanMatchesF f1 l = scanMatchesF f2 l := by
  intro f1
  induction f1 with
  | zero =>
    intro f2 l h1 _
    have : l = [] := List.eq_nil_of_length_eq_zero (Nat.le_zero.mp h1)
    subst this
    cases f2 <;> rfl
  | succ f ih =>
    intro f2 l h1 h2
    match l with
    | [] => cases f2 <;> rfl
    | c :: cs =>
      match f2 with
      | 0 => simp at h2
      | g + 1 =>
        simp only [scanMatchesF]
        match hm : tryInMatch (c :: cs) with
        | some (o, b, r) =>
          have hr := tryInMatch_rest_length hm
          simp only [List.length_cons] at h1 h2 hr
          dsimp only
          rw [ih g r (by omega) (by omega)]
        | none =>
          simp only [List.length_cons] at h1 h2
          dsimp only
          rw [ih g cs (by omega) (by omega)]

theorem scanMatches_cons_some {c : Char} {cs o b r : List Char}
    (h : tryInMatch (c :: cs) = some (o, b, r)) :
    scanMatches (c :: cs) = o :: scanMatches r := by
  have hr := tryInMatch_rest_length h
  simp only [List.length_cons] at hr
  unfold scanMatches
  simp only [List.length_cons, scanMatchesF, h]
  rw [scanMatchesF_congr cs.length r.length r (by omega) (by omega)]

theorem scanMatches_cons_none {c : Char} {cs : List Char}
    (h : tryInMatch (c :: cs) = none) :
    scanMatches (c :: cs) = scanMatches cs := by
  unfold scanMatches
  simp only [List.length_cons, scanMatchesF, h]

theorem scanReplace_append_not_inI {pre : List Char} (suf : List Char)
    (h : ∀ c ∈ pre, isInI c = false) :
    scanReplace (pre ++ suf) = pre ++ scanReplace suf := by
  induction pre with
  | nil => simp
  | cons c cs ih =>
    have hc : isInI c = false := h c (by simp)
    rw [List.cons_append, scanReplace_cons_none (tryInMatch_none_of_not_inI hc _)]
    rw [ih (fun x hx => h x (by simp [hx]))]
    simp

theorem scanMatches_append_not_inI {pre : List Char} (suf : List Char)
    (h : ∀ c ∈ pre, isInI c = false) :
    scanMatches (pre ++ suf) = scanMatches suf := by
  induction pre with
  | nil => simp
  | cons c cs ih =>
    have hc : isInI c = false := h c (by simp)
    rw [List.cons_append, scanMatches_cons_none (tryInMatch_none_of_not_inI hc _)]
    exact ih (fun x hx => h x (by simp [hx]))

theorem scanReplace_nil : scanReplace [] = [] := rfl

theorem scanMatches_nil : scanMatches [] = [] := rfl

theorem scanReplace_of_not_inI {l : List Char} (h : ∀ c ∈ l, isInI c = false) :
    scanReplace l = l := by
  have h2 := @scanReplace_append_not_inI l [] h
  rw [scanReplace_nil] at h2
  simpa using h2

theorem scanMatches_of_not_inI {l : List Char} (h : ∀ c ∈ l, isInI c = false) :
    scanMatches l = [] := by
  have h2 := @scanMatches_append_not_inI l [] h
  rw [scanMatches_nil] at h2
  simpa using h2


theorem isJsSpace_not_inI {c : Char} (h : isJsSpace c = true) : isInI c = false := by
  simp only [isJsSpace, Bool.or_eq_true, decide_eq_true_eq] at h
  rcases h with ((((rfl | rfl) | rfl) | rfl) | rfl) | rfl <;> rfl

theorem isInN_not_inI {c : Char} (h : isInN c = true) : isInI c = false := by
  simp only [isInN, Bool.or_eq_true, decide_eq_true_eq] at h
  rcases h with rfl | rfl <;> rfl

theorem dropWhile_head_false {p : Char → Bool} : ∀ {l x : List Char} {c : Char},
    l.dropWhile p = c :: x → p c = false := by
  intro l
  induction l with
  | nil => intro x c h; simp [List.dropWhile] at h
  | cons a as ih =>
    intro x c h
    rw [List.dropWhile_cons] at h
    split at h
    · exact ih h
    · next hpa =>
      have hac : a = c := by
        have := congrArg List.head? h
        simpa using this
      rw [← hac]
      simpa using hpa

theorem splitOnCommaL_length (l : List Char) :
    (splitOnCommaL l).length = l.count ',' + 1 := by
  induction l with
  | nil => rfl
  | cons c cs ih =>
    by_cases hc : c = ','
    · subst hc
      simp [splitOnCommaL, List.count_cons, ih]
    · simp only [splitOnCommaL, if_neg hc]
      match h : splitOnCommaL cs with
      | [] => rw [h] at ih; simp at ih
      | p :: ps =>
        rw [h] at ih
        simp only [List.length_cons] at ih ⊢
        rw [List.count_cons]
        simp [hc, ih]

theorem splitOnCommaL_pieces {l : List Char} :
    ∀ p ∈ splitOnCommaL l, ∀ c ∈ p, c ∈ l ∧ c ≠ ',' := by
  induction l with
  | nil => intro p hp c hc; simp [splitOnCommaL] at hp; subst hp; simp at hc
  | cons a as ih =>
    intro p hp c hc
    by_cases ha : a = ','
    · subst ha
      simp only [splitOnCommaL, if_pos rfl] at hp
      rcases List.mem_cons.mp hp with rfl | hp
      · simp at hc
      · obtain ⟨h1, h2⟩ := ih p hp c hc
        exact ⟨by simp [h1], h2⟩
    · simp only [splitOnCommaL, if_neg ha] at hp
      match h : splitOnCommaL as with
      | [] => rw [h] at hp; simp at hp; subst hp; simp at hc; subst hc; simp [ha]
      | q :: qs =>
        rw [h] at hp
        rcases List.mem_cons.mp hp with rfl | hp
        · rcases List.mem_cons.mp hc with rfl | hc
          · exact ⟨by simp, ha⟩
          · have hq : q ∈ splitOnCommaL as := by rw [h]; simp
            obtain ⟨h1, h2⟩ := ih q hq c hc
            exact ⟨by simp [h1], h2⟩
        · have hq : p ∈ splitOnCommaL as := by rw [h]; simp [hp]
          obtain ⟨h1, h2⟩ := ih p hq c hc
          exact ⟨by simp [h1], h2⟩

theorem joinCommaL_mem : ∀ {xss : List (List Char)} {c : Char},
    c ∈ joinCommaL xss → c = ',' ∨ ∃ xs ∈ xss, c ∈ xs := by
  intro xss
  induction xss with
  | nil => intro c hc; simp [joinCommaL] at hc
  | cons x xs ih =>
    intro c hc
    match xs with
    | [] => simp only [joinCommaL] at hc; exact Or.inr ⟨x, by simp, hc⟩
    | y :: ys =>
      simp only [joinCommaL, List.mem_append, List.mem_cons] at hc
      rcases hc with hc | hc | hc
      · exact Or.inr ⟨x, by simp, hc⟩
      · exact Or.inl hc
      · rcases ih hc with h | ⟨z, hz, hcz⟩
        · exact Or.inl h
        · exact Or.inr ⟨z, by simp [List.mem_cons.mp hz], hcz⟩

theorem joinCommaL_count_comma : ∀ {xss : List (List Char)},
    xss ≠ [] → (∀ xs ∈ xss, ',' ∉ xs) →
    (joinCommaL xss).count ',' = xss.length - 1 := by
  intro xss
  induction xss with
  | nil => intro h; exact absurd rfl h
  | cons x xs ih =>
    intro _ hall
    match xs with
    | [] =>
      simp only [joinCommaL]
      have : ',' ∉ x := hall x (by simp)
      simp [List.count_eq_zero.mpr this]
    | y :: ys =>
      simp only [joinCommaL]
      rw [List.count_append, List.count_cons]
      have hx : ',' ∉ x := hall x (by simp)
      have := ih (by simp) (fun z hz => hall z (by simp [List.mem_cons.mp hz]))
      simp only [joinCommaL] at this
      rw [List.count_eq_zero.mpr hx, this]
      simp

theorem trimL_subset {l : List Char} {c : Char} (h : c ∈ trimL l) : c ∈ l := by
  unfold trimL at h
  have h1 := List.mem_reverse.mp h
  have h2 := (List.dropWhile_suffix isJsSpace).sublist.mem h1
  have h3 := List.mem_reverse.mp h2
  exact (List.dropWhile_suffix isJsSpace).sublist.mem h3

theorem digitChar_isDigit (n : Nat) : (digitChar n).isDigit = true := by
  unfold digitChar
  split <;> try rfl
  split <;> try rfl
  split <;> try rfl
  split <;> try rfl
  split <;> try rfl
  split <;> try rfl
  split <;> try rfl
  split <;> try rfl
  split <;> rfl

theorem natToCharsAux_mem : ∀ (fuel n : Nat) (acc : List Char),
    (∀ c ∈ acc, c.isDigit = true) →
    ∀ c ∈ natToCharsAux fuel n acc, c.isDigit = true := by
  intro fuel
  induction fuel with
  | zero => intro n acc hacc c hc; exact hacc c hc
  | succ f ih =>
    intro n acc hacc c hc
    unfold natToCharsAux at hc
    split at hc
    · rcases List.mem_cons.mp hc with rfl | hc
      · exact digitChar_isDigit n
      · exact hacc c hc
    · refine ih (n / 10) _ ?_ c hc
      intro d hd
      rcases List.mem_cons.mp hd with rfl | hd
      · exact digitChar_isDigit (n % 10)
      · exact hacc d hd

theorem natToChars_isDigit {n : Nat} {c : Char} (h : c ∈ natToChars n) :
    c.isDigit = true :=
  natToCharsAux_mem (n + 1) n [] (by simp) c h


/-- The truncated body text produced for an IN clause whose trimmed item
list is params. -/
def midOf (params : List (List Char)) : List Char :=
  joinCommaL (params.take 3) ++
    (((",...").data ++ natToChars (params.length - 6) ++ (" more...,").data) ++
      joinCommaL (params.drop (params.length - 3)))

theorem truncRepl_le {o b : List Char}
    (h : (splitOnCommaL b).length ≤ 10) : truncRepl o b = o := by
  unfold truncRepl
  rw [if_pos]
  simpa using h

theorem truncRepl_gt {o b : List Char}
    (h : 10 < (splitOnCommaL b).length) :
    truncRepl o b =
      'I' :: 'N' :: ' ' :: '(' :: (midOf ((splitOnCommaL b).map trimL) ++ [')']) := by
  unfold truncRepl midOf
  rw [if_neg]
  · simp [List.append_assoc]
  · simpa using Nat.not_le.mpr h

theorem midOf_ne_nil (params : List (List Char)) : midOf params ≠ [] := by
  unfold midOf
  intro h
  rcases List.append_eq_nil.mp h with ⟨-, h2⟩
  rcases List.append_eq_nil.mp h2 with ⟨h3, -⟩
  rcases List.append_eq_nil.mp h3 with ⟨h4, -⟩
  simp at h4

theorem midOf_no_rparen {params : List (List Char)}
    (h : ∀ p ∈ params, ∀ c ∈ p, c ≠ ')') :
    ∀ x ∈ midOf params, x ≠ ')' := by
  intro x hx
  unfold midOf at hx
  simp only [List.mem_append] at hx
  rcases hx with hx | (hx | hx) | hx
  · rcases joinCommaL_mem hx with rfl | ⟨p, hp, hxp⟩
    · decide
    · exact h p (List.mem_of_mem_take hp) x hxp
  · rcases hx with hx | hx
    · fin_cases hx <;> decide
    · intro he
      subst he
      have := natToChars_isDigit hx
      simp at this
  · fin_cases hx <;> decide
  · rcases joinCommaL_mem hx with rfl | ⟨p, hp, hxp⟩
    · decide
    · exact h p (List.mem_of_mem_drop hp) x hxp

theorem midOf_count_comma {params : List (List Char)}
    (hlen : 10 < params.length)
    (h : ∀ p ∈ params, ',' ∉ p) :
    (midOf params).count ',' = 6 := by
  unfold midOf
  rw [List.count_append, List.count_append, List.count_append, List.count_append]
  have h1 : (joinCommaL (params.take 3)).count ',' = 2 := by
    rw [joinCommaL_count_comma]
    · rw [List.length_take]
      omega
    · intro hnil
      have h3 : (params.take 3).length = 3 := by rw [List.length_take]; omega
      rw [hnil] at h3
      simp at h3
    · intro xs hxs
      exact h xs (List.mem_of_mem_take hxs)
  have h2 : (joinCommaL (params.drop (params.length - 3))).count ',' = 2 := by
    rw [joinCommaL_count_comma]
    · rw [List.length_drop]
      omega
    · intro hnil
      have h3 : (params.drop (params.length - 3)).length = 3 := by
        rw [List.length_drop]; omega
      rw [hnil] at h3
      simp at h3
    · intro xs hxs
      exact h xs (List.mem_of_mem_drop hxs)
  have h3 : ((",...").data).count ',' = 1 := by decide
  have h4 : ((" more...,").data).count ',' = 1 := by decide
  have h5 : (natToChars (params.length - 6)).count ',' = 0 := by
    rw [List.count_eq_zero]
    intro hc
    have := natToChars_isDigit hc
    simp at this
  rw [h1, h2, h3, h4, h5]


theorem split_trim_no_comma (b : List Char) :
    ∀ p ∈ (splitOnCommaL b).map trimL, ',' ∉ p := by
  intro p hp
  rcases List.mem_map.mp hp with ⟨q, hq, rfl⟩
  intro hc
  exact (splitOnCommaL_pieces q hq ',' (trimL_subset hc)).2 rfl

theorem split_trim_no_rparen {b : List Char} (hb : ∀ x ∈ b, x ≠ ')') :
    ∀ p ∈ (splitOnCommaL b).map trimL, ∀ c ∈ p, c ≠ ')' := by
  intro p hp c hc
  rcases List.mem_map.mp hp with ⟨q, hq, rfl⟩
  exact hb c (splitOnCommaL_pieces q hq c (trimL_subset hc)).1

theorem tryInMatch_some_of_any {l o b r : List Char}
    (h : tryInMatch l = some (o, b, r)) :
    scanReplace l = truncRepl o b ++ scanReplace r ∧
      scanMatches l = o :: scanMatches r := by
  match l with
  | [] => simp [tryInMatch] at h
  | c :: cs => exact ⟨scanReplace_cons_some h, scanMatches_cons_some h⟩

theorem truncRepl_ne_nil {l o b r : List Char}
    (h : tryInMatch l = some (o, b, r)) : truncRepl o b ≠ [] := by
  obtain ⟨c1, c2, ws, -, -, -, -, -, ho, -⟩ := tryInMatch_inv h
  by_cases hle : (splitOnCommaL b).length ≤ 10
  · rw [truncRepl_le hle, ho]
    simp
  · rw [truncRepl_gt (Nat.not_le.mp hle)]
    simp

theorem tryInMatch_truncRepl_append {l o b r : List Char}
    (h : tryInMatch l = some (o, b, r)) (out : List Char) :
    ∃ b2, tryInMatch (truncRepl o b ++ out) = some (truncRepl o b, b2, out) ∧
      truncRepl (truncRepl o b) b2 = truncRepl o b := by
  obtain ⟨c1, c2, ws, h1, h2, hws, hbne, hbp, ho, hl⟩ := tryInMatch_inv h
  by_cases hle : (splitOnCommaL b).length ≤ 10
  · refine ⟨b, ?_, ?_⟩
    · rw [truncRepl_le hle, ho]
      have : (c1 :: c2 :: (ws ++ '(' :: (b ++ [')']))) ++ out =
          c1 :: c2 :: (ws ++ '(' :: (b ++ ')' :: out)) := by
        simp [List.append_assoc]
      rw [this, tryInMatch_build h1 h2 hws hbne hbp, ← ho]
    · rw [truncRepl_le hle, truncRepl_le hle]
  · have hgt := Nat.not_le.mp hle
    set params := (splitOnCommaL b).map trimL with hparams
    have hplen : 10 < params.length := by
      rw [hparams]; simpa using hgt
    have hmidne := midOf_ne_nil params
    have hmidnp := midOf_no_rparen (split_trim_no_rparen hbp)
    refine ⟨midOf params, ?_, ?_⟩
    · rw [truncRepl_gt hgt, ← hparams]
      have : ('I' :: 'N' :: ' ' :: '(' :: (midOf params ++ [')'])) ++ out =
          'I' :: 'N' :: ([' '] ++ '(' :: (midOf params ++ ')' :: out)) := by
        simp [List.append_assoc]
      rw [this, tryInMatch_build (by rfl) (by rfl) (by intro w hw; fin_cases hw; rfl)
        hmidne hmidnp]
      rfl
    · have hsplit : (splitOnCommaL (midOf params)).length = 7 := by
        rw [splitOnCommaL_length, midOf_count_comma hplen (split_trim_no_comma b)]
      rw [truncRepl_le (by rw [hsplit]; omega)]

theorem scanReplace_head (c : Char) (cs : List Char) :
    ∃ d rest, scanReplace (c :: cs) = d :: rest ∧
      (d = c ∨ (isInI c = true ∧ d = 'I')) := by
  match hm : tryInMatch (c :: cs) with
  | none =>
    exact ⟨c, scanReplace cs, scanReplace_cons_none hm, Or.inl rfl⟩
  | some (o, b, r) =>
    obtain ⟨c1, c2, ws, h1, h2, hws, hbne, hbp, ho, hl⟩ := tryInMatch_inv hm
    have hc1 : c1 = c := by
      rw [ho] at hl
      have hh := congrArg List.head? hl
      simp at hh
      exact hh.symm
    by_cases hle : (splitOnCommaL b).length ≤ 10
    · refine ⟨c, ((truncRepl o b).tail ++ scanReplace r), ?_, Or.inl rfl⟩
      rw [scanReplace_cons_some hm, truncRepl_le hle, ho, hc1]
      simp
    · refine ⟨'I', (truncRepl o b).tail ++ scanReplace r, ?_, Or.inr ⟨hc1 ▸ h1, rfl⟩⟩
      rw [scanReplace_cons_some hm, truncRepl_gt (Nat.not_le.mp hle)]
      simp


theorem rparen_mem_of_some {l o b r : List Char}
    (h : tryInMatch l = some (o, b, r)) : ')' ∈ l := by
  obtain ⟨c1, c2, ws, -, -, -, -, -, ho, hl⟩ := tryInMatch_inv h
  rw [hl, ho]
  simp

theorem scanReplace_no_rparen : ∀ {l : List Char}, (∀ x ∈ l, x ≠ ')') →
    scanReplace l = l := by
  intro l
  induction l with
  | nil => intro _; rfl
  | cons c cs ih =>
    intro h
    match hm : tryInMatch (c :: cs) with
    | some (o, b, r) =>
      exact absurd rfl (h ')' (rparen_mem_of_some hm))
    | none =>
      rw [scanReplace_cons_none hm, ih (fun x hx => h x (by simp [hx]))]

theorem tryInMatch_none_build_ws {c c2 : Char} {ws : List Char}
    (h1 : isInI c = true) (h2 : isInN c2 = true)
    (hws : ∀ w ∈ ws, isJsSpace w = true) :
    tryInMatch (c :: c2 :: ws) = none := by
  simp only [tryInMatch, h1, h2, Bool.and_self, if_true]
  rw [List.dropWhile_eq_nil_iff.mpr (fun x hx => hws x hx)]

theorem tryInMatch_none_build_notlparen {c c2 d : Char} {ws X : List Char}
    (h1 : isInI c = true) (h2 : isInN c2 = true)
    (hws : ∀ w ∈ ws, isJsSpace w = true)
    (hd : isJsSpace d = false) (hdp : d ≠ '(') :
    tryInMatch (c :: c2 :: (ws ++ d :: X)) = none := by
  simp only [tryInMatch, h1, h2, Bool.and_self, if_true]
  rw [dropWhile_all_cons_append isJsSpace d X hws hd]
  split
  · next heq =>
    have hhd : d = '(' := by
      have h5 := congrArg List.head? heq
      simpa using h5
    exact absurd hhd hdp
  · rfl

theorem tryInMatch_none_build_emptybody {c c2 : Char} {ws X : List Char}
    (h1 : isInI c = true) (h2 : isInN c2 = true)
    (hws : ∀ w ∈ ws, isJsSpace w = true) :
    tryInMatch (c :: c2 :: (ws ++ '(' :: ')' :: X)) = none := by
  simp only [tryInMatch, h1, h2, Bool.and_self, if_true]
  rw [dropWhile_all_cons_append isJsSpace '(' (')' :: X) hws (by decide)]
  simp

theorem tryInMatch_none_scan {c : Char} {cs : List Char}
    (h : tryInMatch (c :: cs) = none) :
    tryInMatch (c :: scanReplace cs) = none := by
  by_cases hc : isInI c = true
  case neg =>
    exact tryInMatch_none_of_not_inI (Bool.eq_false_iff.mpr hc) _
  case pos =>
    match cs with
    | [] => rfl
    | c2 :: r =>
      by_cases hc2 : isInN c2 = true
      case neg =>
        obtain ⟨d, rest, heq, hd⟩ := scanReplace_head c2 r
        rw [heq]
        refine tryInMatch_none_of_not_inN ?_ rest
        rcases hd with rfl | ⟨-, rfl⟩
        · exact Bool.eq_false_iff.mpr hc2
        · rfl
      case pos =>
        have hsr : scanReplace (c2 :: r) = c2 :: scanReplace r :=
          scanReplace_cons_none (tryInMatch_none_of_not_inI (isInN_not_inI hc2) r)
        rw [hsr]
        have hwsall : ∀ w ∈ r.takeWhile isJsSpace, isJsSpace w = true :=
          fun w hw => mem_takeWhile_pred isJsSpace r hw
        match hdw : r.dropWhile isJsSpace with
        | [] =>
          have hall : ∀ x ∈ r, isJsSpace x = true := by
            rw [List.dropWhile_eq_nil_iff] at hdw
            exact fun x hx => hdw x hx
          have hid : scanReplace r = r :=
            scanReplace_of_not_inI (fun x hx => isJsSpace_not_inI (hall x hx))
          rw [hid]
          exact h
        | x :: dr =>
          have hxs : isJsSpace x = false := dropWhile_head_false hdw
          have hr : r = r.takeWhile isJsSpace ++ x :: dr := by
            conv_lhs => rw [← List.takeWhile_append_dropWhile isJsSpace r]
            rw [hdw]
          by_cases hx : x = '('
          · subst hx
            match hdw2 : dr.dropWhile (fun c => c != ')') with
            | [] =>
              have hnp : ∀ y ∈ dr, y ≠ ')' := by
                rw [List.dropWhile_eq_nil_iff] at hdw2
                intro y hy he
                have h5 := hdw2 y hy
                subst he
                simp at h5
              have hid2 : scanReplace ('(' :: dr) = '(' :: dr :=
                scanReplace_no_rparen (by
                  intro y hy
                  rcases List.mem_cons.mp hy with rfl | hy
                  · decide
                  · exact hnp y hy)
              have hidr : scanReplace r = r := by
                conv_lhs => rw [hr]
                rw [scanReplace_append_not_inI _
                  (fun w hw => isJsSpace_not_inI (hwsall w hw)), hid2]
                exact hr.symm
              rw [hidr]
              exact h
            | d :: r3 =>
              have hd : d = ')' := by
                have h5 := dropWhile_head_false hdw2
                simpa using h5
              subst hd
              by_cases hbe : (dr.takeWhile (fun c => c != ')')).isEmpty = true
              · have hdr : dr = ')' :: r3 := by
                  conv_lhs => rw [← List.takeWhile_append_dropWhile
                    (fun c => c != ')') dr]
                  rw [hdw2, List.isEmpty_iff.mp hbe]
                  rfl
                subst hdr
                have hid3 : scanReplace ('(' :: ')' :: r3) =
                    '(' :: ')' :: scanReplace r3 := by
                  rw [scanReplace_cons_none (tryInMatch_none_of_not_inI (by decide) _),
                    scanReplace_cons_none (tryInMatch_none_of_not_inI (by decide) _)]
                have hidr : scanReplace r = r.takeWhile isJsSpace ++
                    '(' :: ')' :: scanReplace r3 := by
                  conv_lhs => rw [hr]
                  rw [scanReplace_append_not_inI _
                    (fun w hw => isJsSpace_not_inI (hwsall w hw)), hid3]
                rw [hidr]
                exact tryInMatch_none_build_emptybody hc hc2 hwsall
              · exfalso
                have hbody : dr = dr.takeWhile (fun c => c != ')') ++ ')' :: r3 := by
                  conv_lhs => rw [← List.takeWhile_append_dropWhile
                    (fun c => c != ')') dr]
                  rw [hdw2]
                have hbne : dr.takeWhile (fun c => c != ')') ≠ [] := by
                  intro hni
                  rw [hni] at hbe
                  simp at hbe
                have hbnp : ∀ y ∈ dr.takeWhile (fun c => c != ')'), y ≠ ')' := by
                  intro y hy
                  have h5 := mem_takeWhile_pred _ dr hy
                  simpa using h5
                have hne : tryInMatch (c :: c2 :: r) ≠ none := by
                  conv_lhs => rw [hr, hbody]
                  rw [tryInMatch_build hc hc2 hwsall hbne hbnp]
                  simp
                exact hne h
          · obtain ⟨d, rest2, heq2, hd2⟩ := scanReplace_head x dr
            have hidr : scanReplace r = r.takeWhile isJsSpace ++ d :: rest2 := by
              conv_lhs => rw [hr]
              rw [scanReplace_append_not_inI _
                (fun w hw => isJsSpace_not_inI (hwsall w hw)), heq2]
            rw [hidr]
            have hds : isJsSpace d = false := by
              rcases hd2 with rfl | ⟨-, rfl⟩
              · exact hxs
              · rfl
            have hdnp : d ≠ '(' := by
              rcases hd2 with rfl | ⟨-, rfl⟩
              · exact hx
              · decide
            exact tryInMatch_none_build_notlparen hc hc2 hwsall hds hdnp


theorem scanReplace_idem_aux : ∀ (n : Nat) (l : List Char), l.length ≤ n →
    scanReplace (scanReplace l) = scanReplace l := by
  intro n
  induction n with
  | zero =>
    intro l h
    have : l = [] := List.eq_nil_of_length_eq_zero (Nat.le_zero.mp h)
    subst this
    rfl
  | succ n ih =>
    intro l h
    match l with
    | [] => rfl
    | c :: cs =>
      match hm : tryInMatch (c :: cs) with
      | none =>
        rw [scanReplace_cons_none hm]
        rw [scanReplace_cons_none (tryInMatch_none_scan hm)]
        simp only [List.length_cons] at h
        rw [ih cs (by omega)]
      | some (o, b, r) =>
        rw [scanReplace_cons_some hm]
        obtain ⟨b2, h1, h2⟩ := tryInMatch_truncRepl_append hm (scanReplace r)
        rw [(tryInMatch_some_of_any h1).1, h2]
        have hr := tryInMatch_rest_length hm
        simp only [List.length_cons] at h hr
        rw [ih r (by omega)]

theorem scanReplace_idem (l : List Char) :
    scanReplace (scanReplace l) = scanReplace l :=
  scanReplace_idem_aux l.length l (Nat.le_refl _)

theorem smartTruncateQueryL_idem (q : List Char) :
    smartTruncateQueryL (smartTruncateQueryL q) = smartTruncateQueryL q := by
  unfold smartTruncateQueryL
  by_cases h1 : (scanMatches q).isEmpty = true
  · simp only [h1, if_true]
  · simp only [h1, if_false, Bool.false_eq_true]
    by_cases h2 : (scanMatches q).any (fun m => 9 ≤ m.count ',') = true
    · simp only [h2, if_true]
      by_cases h3 : (scanMatches (scanReplace q)).isEmpty = true
      · simp only [h3, if_true]
      · simp only [h3, if_false, Bool.false_eq_true]
        by_cases h4 : (scanMatches (scanReplace q)).any (fun m => 9 ≤ m.count ',') = true
        · simp only [h4, if_true]
          exact scanReplace_idem q
        · simp only [h4, if_false, Bool.false_eq_true]
    · simp only [h2, if_false, Bool.false_eq_true, h1]


theorem clause_shape (body suf : List Char) :
    'I' :: 'N' :: ' ' :: '(' :: (body ++ ')' :: suf) =
      'I' :: 'N' :: (([' '] : List Char) ++ '(' :: (body ++ ')' :: suf)) := rfl

theorem tryInMatch_clause {body : List Char} (suf : List Char)
    (hbne : body ≠ []) (hbp : ∀ x ∈ body, x ≠ ')') :
    tryInMatch ('I' :: 'N' :: ' ' :: '(' :: (body ++ ')' :: suf)) =
      some ('I' :: 'N' :: ' ' :: '(' :: (body ++ [')']), body, suf) := by
  rw [clause_shape]
  rw [tryInMatch_build (by rfl) (by rfl) (by intro w hw; fin_cases hw; rfl) hbne hbp]
  rfl

theorem scan_single_clause {pre body : List Char} (suf : List Char)
    (hpre : ∀ c ∈ pre, isInI c = false)
    (hbne : body ≠ []) (hbp : ∀ x ∈ body, x ≠ ')') :
    scanMatches (pre ++ 'I' :: 'N' :: ' ' :: '(' :: (body ++ ')' :: suf)) =
      ('I' :: 'N' :: ' ' :: '(' :: (body ++ [')'])) :: scanMatches suf ∧
    scanReplace (pre ++ 'I' :: 'N' :: ' ' :: '(' :: (body ++ ')' :: suf)) =
      pre ++ (truncRepl ('I' :: 'N' :: ' ' :: '(' :: (body ++ [')'])) body ++
        scanReplace suf) := by
  constructor
  · rw [scanMatches_append_not_inI _ hpre,
      scanMatches_cons_some (tryInMatch_clause suf hbne hbp)]
  · rw [scanReplace_append_not_inI _ hpre,
      scanReplace_cons_some (tryInMatch_clause suf hbne hbp)]

theorem clause_count_comma (body : List Char) :
    ('I' :: 'N' :: ' ' :: '(' :: (body ++ [')'])).count ',' = body.count ',' := by
  simp [List.count_cons, List.count_append]


theorem smartTruncate_clause_calc {pre body suf : List Char}
    (hpre : ∀ c ∈ pre, isInI c = false) (hsuf : ∀ c ∈ suf, isInI c = false)
    (hbne : body ≠ []) (hbp : ∀ x ∈ body, x ≠ ')')
    (hflag : 9 ≤ body.count ',') :
    smartTruncateQueryL (pre ++ 'I' :: 'N' :: ' ' :: '(' :: (body ++ ')' :: suf)) =
      pre ++ (truncRepl ('I' :: 'N' :: ' ' :: '(' :: (body ++ [')'])) body ++ suf) := by
  obtain ⟨hm, hrep⟩ := scan_single_clause suf hpre hbne hbp
  unfold smartTruncateQueryL
  rw [hm, scanMatches_of_not_inI hsuf]
  rw [if_neg (by simp)]
  rw [if_pos]
  · rw [hrep, scanReplace_of_not_inI hsuf]
  · simp only [List.any_cons, List.any_nil, Bool.or_false]
    rw [clause_count_comma]
    simpa using hflag

/-- C1: an IN clause whose body splits into exactly 10 comma-separated items
is left completely unchanged by the smart truncator, while one with 11 or
more items is rewritten to the truncated form (and really changed): the
threshold comparison is strictly greater-than 10. -/
theorem c1_threshold_boundary (pre body suf : List Char)
    (hpre : ∀ c ∈ pre, isInI c = false) (hsuf : ∀ c ∈ suf, isInI c = false)
    (hbne : body ≠ []) (hbp : ∀ x ∈ body, x ≠ ')') :
    ((splitOnCommaL body).length = 10 →
      smartTruncateQueryL (pre ++ 'I' :: 'N' :: ' ' :: '(' :: (body ++ ')' :: suf)) =
        pre ++ 'I' :: 'N' :: ' ' :: '(' :: (body ++ ')' :: suf)) ∧
    (11 ≤ (splitOnCommaL body).length →
      smartTruncateQueryL (pre ++ 'I' :: 'N' :: ' ' :: '(' :: (body ++ ')' :: suf)) =
        pre ++ 'I' :: 'N' :: ' ' :: '(' ::
          (midOf ((splitOnCommaL body).map trimL) ++ ')' :: suf) ∧
      smartTruncateQueryL (pre ++ 'I' :: 'N' :: ' ' :: '(' :: (body ++ ')' :: suf)) ≠
        pre ++ 'I' :: 'N' :: ' ' :: '(' :: (body ++ ')' :: suf)) := by
  have hsplit := splitOnCommaL_length body
  constructor
  · intro h10
    rw [smartTruncate_clause_calc hpre hsuf hbne hbp (by omega)]
    rw [truncRepl_le (by omega)]
    simp [List.append_assoc]
  · intro h11
    have heq : smartTruncateQueryL
        (pre ++ 'I' :: 'N' :: ' ' :: '(' :: (body ++ ')' :: suf)) =
        pre ++ 'I' :: 'N' :: ' ' :: '(' ::
          (midOf ((splitOnCommaL body).map trimL) ++ ')' :: suf) := by
      rw [smartTruncate_clause_calc hpre hsuf hbne hbp (by omega)]
      rw [truncRepl_gt (by omega)]
      simp [List.append_assoc]
    refine ⟨heq, ?_⟩
    rw [heq]
    intro hcontra
    have hcnt := congrArg (fun l => List.count ',' l) hcontra
    have hmid : (midOf ((splitOnCommaL body).map trimL)).count ',' = 6 := by
      apply midOf_count_comma
      · simpa using (by omega : 11 ≤ (splitOnCommaL body).length)
      · exact split_trim_no_comma body
    simp only [List.count_append, List.count_cons] at hcnt
    rw [hmid] at hcnt
    simp at hcnt
    omega


/-- C2: every IN clause with more than ten comma-separated items is rewritten
independently, according to its own item count, to first three items, the
elision marker reporting n - 6, and the last three items (midOf spells out
exactly that text). -/
theorem c2_truncation_shape (pre mid suf b1 b2 : List Char)
    (hpre : ∀ c ∈ pre, isInI c = false) (hmid : ∀ c ∈ mid, isInI c = false)
    (hsuf : ∀ c ∈ suf, isInI c = false)
    (hbne1 : b1 ≠ []) (hbp1 : ∀ x ∈ b1, x ≠ ')')
    (hbne2 : b2 ≠ []) (hbp2 : ∀ x ∈ b2, x ≠ ')')
    (h1 : 11 ≤ (splitOnCommaL b1).length) (h2 : 11 ≤ (splitOnCommaL b2).length) :
    smartTruncateQueryL
      (pre ++ 'I' :: 'N' :: ' ' :: '(' :: (b1 ++ ')' ::
        (mid ++ 'I' :: 'N' :: ' ' :: '(' :: (b2 ++ ')' :: suf)))) =
      pre ++ ('I' :: 'N' :: ' ' :: '(' ::
          (midOf ((splitOnCommaL b1).map trimL) ++ [')']) ++
        (mid ++ ('I' :: 'N' :: ' ' :: '(' ::
          (midOf ((splitOnCommaL b2).map trimL) ++ [')']) ++ suf))) := by
  have hc1 := splitOnCommaL_length b1
  have hc2 := splitOnCommaL_length b2
  obtain ⟨hm1, hrep1⟩ := @scan_single_clause pre b1
    (mid ++ 'I' :: 'N' :: ' ' :: '(' :: (b2 ++ ')' :: suf)) hpre hbne1 hbp1
  obtain ⟨hm2, hrep2⟩ := @scan_single_clause mid b2 suf hmid hbne2 hbp2
  unfold smartTruncateQueryL
  rw [hm1, hm2, scanMatches_of_not_inI hsuf]
  rw [if_neg (by simp)]
  rw [if_pos]
  · rw [hrep1, hrep2, scanReplace_of_not_inI hsuf]
    rw [truncRepl_gt (by omega), truncRepl_gt (by omega)]
  · simp only [List.any_cons, List.any_nil, Bool.or_false, Bool.or_eq_true]
    left
    rw [clause_count_comma]
    simp only [decide_eq_true_eq]
    omega


/-- C6: the smart truncator is idempotent on every input text. -/
theorem c6_truncator_idempotent (s : String) :
    smartTruncateQuery (smartTruncateQuery s) = smartTruncateQuery s := by
  show String.mk (smartTruncateQueryL (smartTruncateQueryL s.data)) =
    String.mk (smartTruncateQueryL s.data)
  rw [smartTruncateQueryL_idem]

theorem isPrefixOf_cons_ne {pc c : Char} (pt cs : List Char) (h : c ≠ pc) :
    (pc :: pt).isPrefixOf (c :: cs) = false := by
  rw [Bool.eq_false_iff]
  intro hp
  have := List.isPrefixOf_iff_prefix.mp hp
  rcases this with ⟨t, ht⟩
  have := congrArg List.head? ht
  simp at this
  exact h this.symm

theorem isPrefixOf_append_self (l t : List Char) : l.isPrefixOf (l ++ t) = true :=
  List.isPrefixOf_iff_prefix.mpr (List.prefix_append l t)

theorem replaceAllWBF_congr : ∀ (f1 f2 : Nat) (pat repl l : List Char), pat ≠ [] →
    l.length ≤ f1 → l.length ≤ f2 →
    replaceAllWBF f1 pat repl l = replaceAllWBF f2 pat repl l := by
  intro f1
  induction f1 with
  | zero =>
    intro f2 pat repl l _ h1 _
    have : l = [] := List.eq_nil_of_length_eq_zero (Nat.le_zero.mp h1)
    subst this
    cases f2 <;> rfl
  | succ f ih =>
    intro f2 pat repl l hp h1 h2
    match l with
    | [] => cases f2 <;> rfl
    | c :: cs =>
      match f2 with
      | 0 => simp at h2
      | g + 1 =>
        simp only [replaceAllWBF]
        by_cases hcond : (pat.isPrefixOf (c :: cs) &&
            boundaryOk ((c :: cs).drop pat.length)) = true
        · rw [hcond]
          simp only [if_true]
          have hlen : pat.length ≤ cs.length + 1 := by
            simp only [Bool.and_eq_true] at hcond
            have := (List.isPrefixOf_iff_prefix.mp hcond.1).length_le
            simpa using this
          have hplen : 1 ≤ pat.length := by
            match pat with
            | [] => exact absurd rfl hp
            | _ :: _ => simp
          have hd : ((c :: cs).drop pat.length).length ≤ cs.length := by
            simp only [List.length_drop, List.length_cons]
            omega
          simp only [List.length_cons] at h1 h2
          rw [ih g pat repl _ hp (by omega) (by omega)]
        · rw [Bool.eq_false_iff.mpr hcond]
          simp only [Bool.false_eq_true, if_false]
          simp only [List.length_cons] at h1 h2
          rw [ih g pat repl cs hp (by omega) (by omega)]

theorem replaceAllWB_nil (pat repl : List Char) : replaceAllWB pat repl [] = [] := rfl

theorem replaceAllWB_cons_miss {pat : List Char} (repl : List Char) {c : Char}
    {cs : List Char}
    (h : (pat.isPrefixOf (c :: cs) && boundaryOk ((c :: cs).drop pat.length)) = false) :
    replaceAllWB pat repl (c :: cs) = c :: replaceAllWB pat repl cs := by
  unfold replaceAllWB
  simp only [List.length_cons, replaceAllWBF, h]
  simp

theorem replaceAllWB_cons_hit {pat : List Char} (repl : List Char) {c : Char}
    {cs : List Char} (hp : pat ≠ [])
    (h : (pat.isPrefixOf (c :: cs) && boundaryOk ((c :: cs).drop pat.length)) = true) :
    replaceAllWB pat repl (c :: cs) =
      repl ++ replaceAllWB pat repl ((c :: cs).drop pat.length) := by
  unfold replaceAllWB
  simp only [List.length_cons, replaceAllWBF, h, if_true]
  congr 1
  have hplen : 1 ≤ pat.length := by
    match pat with
    | [] => exact absurd rfl hp
    | _ :: _ => simp
  apply replaceAllWBF_congr _ _ _ _ _ hp
  · simp only [List.length_drop, List.length_cons]
    omega
  · exact Nat.le_refl _

theorem replaceAllWB_pass {pc : Char} {pt : List Char} (repl : List Char)
    {seg : List Char} (rest : List Char) (h : ∀ c ∈ seg, c ≠ pc) :
    replaceAllWB (pc :: pt) repl (seg ++ rest) =
      seg ++ replaceAllWB (pc :: pt) repl rest := by
  induction seg with
  | nil => simp
  | cons c cs ih =>
    rw [List.cons_append, replaceAllWB_cons_miss repl (by
      rw [isPrefixOf_cons_ne _ _ (h c (by simp))]
      rfl)]
    rw [ih (fun x hx => h x (by simp [hx]))]
    simp

theorem replaceAllWB_at {pat : List Char} (repl : List Char) (rest : List Char)
    (hp : pat ≠ []) (hb : boundaryOk rest = true) :
    replaceAllWB pat repl (pat ++ rest) = repl ++ replaceAllWB pat repl rest := by
  match pat with
  | pc :: pt =>
    have hcond : ((pc :: pt).isPrefixOf (pc :: (pt ++ rest)) &&
        boundaryOk ((pc :: (pt ++ rest)).drop (pc :: pt).length)) = true := by
      have hsh : (pc :: (pt ++ rest)) = (pc :: pt) ++ rest := by simp
      rw [hsh, isPrefixOf_append_self, List.drop_left, hb]
      rfl
    have hstep := replaceAllWB_cons_hit repl hp hcond
    rw [List.cons_append, hstep]
    have hdr : (pc :: (pt ++ rest)).drop (pc :: pt).length = rest := by
      have hh := List.drop_left (pc :: pt) rest
      rw [List.cons_append] at hh
      exact hh
    rw [hdr]


theorem replaceAllWB_all_pass {pc : Char} (pt repl : List Char)
    {l : List Char} (h : ∀ c ∈ l, c ≠ pc) :
    replaceAllWB (pc :: pt) repl l = l := by
  have h2 := @replaceAllWB_pass pc pt repl l [] h
  rw [replaceAllWB_nil] at h2
  simpa using h2

/-- C5: substitution is positional and word-boundary-safe: parameter 1
replaces every occurrence of the spellings @P1 and dollar-1, while the
placeholders @P10 and dollar-10 are left intact because the next character
is a word character.  The hypothesis keeps the rendered value free of the
dollar placeholder lead character, since the second (dollar) replace pass
rescans text spliced by the first. -/
theorem c5_positional_word_boundary (p : JsonValue)
    (hd : ∀ c ∈ formatParamValue {} p, c ≠ '$') :
    replaceParamsInQuery {}
      (("WHERE a = @P1 AND a2 = @P1 AND b = $1 AND c = @P10 AND d = $10").data) [p] =
      ("WHERE a = ").data ++ (formatParamValue {} p ++ ((" AND a2 = ").data ++
        (formatParamValue {} p ++ ((" AND b = ").data ++
        (formatParamValue {} p ++ (" AND c = @P10 AND d = $10").data))))) := by
  show replaceAllWB ('$' :: ['1']) (formatParamValue {} p)
      (replaceAllWB ('@' :: 'P' :: ['1']) (formatParamValue {} p)
        (("WHERE a = @P1 AND a2 = @P1 AND b = $1 AND c = @P10 AND d = $10").data)) = _
  have inner : replaceAllWB ('@' :: 'P' :: ['1']) (formatParamValue {} p)
      (("WHERE a = @P1 AND a2 = @P1 AND b = $1 AND c = @P10 AND d = $10").data) =
      ("WHERE a = ").data ++ (formatParamValue {} p ++ ((" AND a2 = ").data ++
        (formatParamValue {} p ++ ((" AND b = ").data ++
        ('$' :: '1' :: (" AND c = @P10 AND d = $10").data))))) := rfl
  rw [inner]
  rw [@replaceAllWB_pass '$' ['1'] _ (("WHERE a = ").data) _ (by decide)]
  congr 1
  rw [@replaceAllWB_pass '$' ['1'] _ (formatParamValue {} p) _ hd]
  congr 1
  rw [@replaceAllWB_pass '$' ['1'] _ ((" AND a2 = ").data) _ (by decide)]
  congr 1
  rw [@replaceAllWB_pass '$' ['1'] _ (formatParamValue {} p) _ hd]
  congr 1


/-- C7: the parameter array [1, 2, 3, "John", null, true] renders at
placeholders 1..6 (in both the @P and the dollar spelling) as the literal
texts 1, 2, 3, quoted John, null and true. -/
theorem c7_scalar_rendering :
    (replaceParamsInQuery {}
      (("SELECT * FROM T WHERE a = @P1 AND b = @P2 AND c = @P3 AND d = @P4 AND e = @P5 AND f = @P6").data)
      [.num 1, .num 2, .num 3, .str ("John"), .null, .bool true] =
      ("SELECT * FROM T WHERE a = 1 AND b = 2 AND c = 3 AND d = ").data ++
        (squote :: (("John").data ++ (squote :: (" AND e = null AND f = true").data)))) ∧
    (replaceParamsInQuery {}
      (("SELECT * FROM T WHERE a = $1 AND b = $2 AND c = $3 AND d = $4 AND e = $5 AND f = $6").data)
      [.num 1, .num 2, .num 3, .str ("John"), .null, .bool true] =
      ("SELECT * FROM T WHERE a = 1 AND b = 2 AND c = 3 AND d = ").data ++
        (squote :: (("John").data ++ (squote :: (" AND e = null AND f = true").data)))) := by
  constructor <;> rfl

/-- C8: the parser's first stage decodes double-encoded JSON: decoding the
raw string yields a string, which is decoded again, so the input
consisting of a quoted JSON array text parses to the array [1, 2, 3]. -/
theorem c8_double_encoded_json :
    jsonParse ("\"[1,2,3]\"") = some (.str ("[1,2,3]")) ∧
    parseQueryParams ("\"[1,2,3]\"") = some (.arr [.num 1, .num 2, .num 3]) := by
  constructor <;> rfl

/-- C9: a configured customQueryFormatter fully bypasses the pipeline: the
formatter returns its result verbatim for every input, so an error it
produces propagates unsuppressed. -/
theorem c9_custom_formatter_bypass (cfg : SqlFormatterConfig)
    (f : String → String → Except String String)
    (h : cfg.customQueryFormatter = some f) (q p : String) :
    formatSqlQuery cfg q p = f q p := by
  unfold formatSqlQuery
  rw [h]

/-- A sample custom formatter that succeeds. -/
def customOkFormatter : SqlFormatterConfig :=
  { customQueryFormatter := some (fun q _ => .ok (("CUSTOM: ") ++ q)) }

/-- A sample custom formatter that throws. -/
def customErrFormatter : SqlFormatterConfig :=
  { customQueryFormatter := some (fun _ _ => .error ("boom")) }

theorem c9_custom_formatter_bypass_witness :
    formatSqlQuery customOkFormatter ("SELECT 1") ("[]") =
      .ok ("CUSTOM: SELECT 1") ∧
    formatSqlQuery customErrFormatter ("SELECT 1") ("[]") =
      .error ("boom") := by
  constructor
  · rw [c9_custom_formatter_bypass _ _ rfl]
    rfl
  · rw [c9_custom_formatter_bypass _ _ rfl]


/-- C10: a parameter string that decodes to a non-array JSON value behaves
as an empty parameter list: nothing is substituted and the query reaches
the truncation stage intact. -/
theorem c10_non_array_params (cfg : SqlFormatterConfig)
    (hc : cfg.customQueryFormatter = none) (q p : String) (v : JsonValue)
    (hp : parseQueryParams p = some v) (hv : ∀ xs, v ≠ .arr xs) :
    formatSqlQuery cfg q p = .ok (smartTruncateQuery q) := by
  unfold formatSqlQuery
  rw [hc]
  unfold formatSqlQueryCore
  by_cases ht : trimS p = ("")
  · rw [if_neg (by simp [ht])]
    rfl
  · rw [if_pos (by simp [ht]), hp]
    dsimp only
    by_cases htr : jsTruthy v = true
    · rw [if_pos htr]
      have ha : asArray v = [] := by
        match v with
        | .arr xs => exact absurd rfl (hv xs)
        | .str _ | .num _ | .bool _ | .null | .obj _ => rfl
      rw [ha]
      rfl
    · rw [if_neg htr]
      rfl

theorem c10_non_array_params_witness :
    parseQueryParams ("\x7b\"a\":1\x7d") = some (.obj [(("a"), .num 1)]) ∧
    formatSqlQuery {} ("SELECT * FROM Users WHERE id = @P1") ("\x7b\"a\":1\x7d") =
      .ok (smartTruncateQuery ("SELECT * FROM Users WHERE id = @P1")) := by
  refine ⟨by rfl, ?_⟩
  exact c10_non_array_params {} rfl _ _ (.obj [(("a"), .num 1)]) (by rfl)
    (fun xs h => by cases h)

/-- C4: the non-custom formatter is total (always an ok result), and when
the parameter string is blank or its parse fails, the result is the
original query with no placeholder substituted, still passed through the
smart truncation check. -/
theorem c4_parse_failure_fallback (cfg : SqlFormatterConfig)
    (hc : cfg.customQueryFormatter = none) :
    (∀ q p, formatSqlQuery cfg q p = .ok (formatSqlQueryCore cfg q p)) ∧
    (∀ q p, trimS p = ("") ∨ parseQueryParams p = none →
      formatSqlQuery cfg q p = .ok (smartTruncateQuery q)) := by
  constructor
  · intro q p
    unfold formatSqlQuery
    rw [hc]
  · intro q p h
    unfold formatSqlQuery
    rw [hc]
    unfold formatSqlQueryCore
    rcases h with h | h
    · rw [if_neg (by simp [h])]
      rfl
    · by_cases ht : trimS p = ("")
      · rw [if_neg (by simp [ht])]
        rfl
      · rw [if_pos (by simp [ht]), h]
        rfl

theorem c4_parse_failure_fallback_witness :
    (parseQueryParams ("not-valid-json") = none ∧
      formatSqlQuery {} ("SELECT * FROM Users WHERE id = @P1") ("not-valid-json") =
        .ok (smartTruncateQuery ("SELECT * FROM Users WHERE id = @P1"))) ∧
    (parseQueryParams ("\x7binvalid\x7d") = none ∧
      formatSqlQuery {} ("SELECT * FROM Users WHERE id = @P1") ("\x7binvalid\x7d") =
        .ok (smartTruncateQuery ("SELECT * FROM Users WHERE id = @P1"))) ∧
    (parseQueryParams ("[1,2") = none ∧
      formatSqlQuery {} ("SELECT * FROM Users") ("[1,2") =
        .ok (smartTruncateQuery ("SELECT * FROM Users"))) ∧
    (trimS ("   ") = ("") ∧
      formatSqlQuery {} ("SELECT * FROM Users") ("   ") =
        .ok (smartTruncateQuery ("SELECT * FROM Users"))) := by
  refine ⟨⟨by rfl, ?_⟩, ⟨by rfl, ?_⟩, ⟨by rfl, ?_⟩, ⟨by rfl, ?_⟩⟩
  · exact (c4_parse_failure_fallback {} rfl).2 _ _ (Or.inr (by rfl))
  · exact (c4_parse_failure_fallback {} rfl).2 _ _ (Or.inr (by rfl))
  · exact (c4_parse_failure_fallback {} rfl).2 _ _ (Or.inr (by rfl))
  · exact (c4_parse_failure_fallback {} rfl).2 _ _ (Or.inl (by rfl))


/-- C3 counterexample: for the 11-element primitive array 1..11, the flat
rendering keeps the first five and last five elements and elides 1 (length
minus 10) interior element; it is not the claimed first-3/last-3 form with
a 5 more (length minus 6) marker. -/
theorem c3_counterexample_first5 :
    formatParamValue {}
      (.arr ((List.range 11).map (fun i => JsonValue.num ((i : Int) + 1)))) =
      ("1,2,3,4,5,...1 more...,7,8,9,10,11").data ∧
    formatParamValue {}
      (.arr ((List.range 11).map (fun i => JsonValue.num ((i : Int) + 1)))) ≠
      ("1,2,3,...5 more...,9,10,11").data := by
  constructor
  · rfl
  · decide

/-- C3 amended: a parameter that is an array of exclusively primitive
values with length > 10 is rendered flat keeping the first five and last
five elements, with the elision marker reporting length - 10 interior
elements. -/
theorem c3_oversized_primitive_array (xs : List JsonValue)
    (hprim : xs.all JsonValue.isPrimitive = true) (hlen : 10 < xs.length) :
    formatParamValue {} (.arr xs) =
      jsJoinComma (xs.take 5) ++
        (((",...").data ++ natToChars (xs.length - 10) ++ (" more...").data) ++
         (',' :: jsJoinComma (xs.drop (xs.length - 5)))) := by
  simp only [formatParamValue]
  rw [if_pos (by simp [hprim, hlen])]
  unfold formatArrayForSql
  rw [if_neg (by omega)]

theorem c3_oversized_primitive_array_witness :
    ((List.range 11).map (fun i => JsonValue.num ((i : Int) + 1))).all
      JsonValue.isPrimitive = true ∧
    10 < ((List.range 11).map (fun i => JsonValue.num ((i : Int) + 1))).length ∧
    formatParamValue {}
      (.arr ((List.range 11).map (fun i => JsonValue.num ((i : Int) + 1)))) =
      jsJoinComma (((List.range 11).map (fun i => JsonValue.num ((i : Int) + 1))).take 5) ++
        (((",...").data ++
          natToChars (((List.range 11).map (fun i => JsonValue.num ((i : Int) + 1))).length - 10) ++
          (" more...").data) ++
         (',' :: jsJoinComma (((List.range 11).map
           (fun i => JsonValue.num ((i : Int) + 1))).drop
           (((List.range 11).map (fun i => JsonValue.num ((i : Int) + 1))).length - 5)))) :=
  ⟨by decide, by decide,
    c3_oversized_primitive_array _ (by decide) (by decide)⟩

theorem c5_positional_word_boundary_witness :
    (∀ c ∈ formatParamValue {} (.num 42), c ≠ '$') ∧
    replaceParamsInQuery {}
      (("WHERE a = @P1 AND a2 = @P1 AND b = $1 AND c = @P10 AND d = $10").data)
      [.num 42] =
      ("WHERE a = ").data ++ (formatParamValue {} (.num 42) ++ ((" AND a2 = ").data ++
        (formatParamValue {} (.num 42) ++ ((" AND b = ").data ++
        (formatParamValue {} (.num 42) ++ (" AND c = @P10 AND d = $10").data))))) :=
  ⟨by decide, c5_positional_word_boundary (.num 42) (by decide)⟩

theorem c1_threshold_boundary_witness :
    (∀ c ∈ ("SELECT a FROM t WHERE x ").data, isInI c = false) ∧
    (splitOnCommaL (("1,2,3,4,5,6,7,8,9,10").data)).length = 10 ∧
    smartTruncateQueryL (("SELECT a FROM t WHERE x ").data ++ 'I' :: 'N' :: ' ' :: '(' ::
        ((("1,2,3,4,5,6,7,8,9,10").data) ++ ')' :: [])) =
      ("SELECT a FROM t WHERE x ").data ++ 'I' :: 'N' :: ' ' :: '(' ::
        ((("1,2,3,4,5,6,7,8,9,10").data) ++ ')' :: []) ∧
    smartTruncateQueryL (("SELECT a FROM t WHERE x ").data ++ 'I' :: 'N' :: ' ' :: '(' ::
        ((("1,2,3,4,5,6,7,8,9,10,11").data) ++ ')' :: [])) ≠
      ("SELECT a FROM t WHERE x ").data ++ 'I' :: 'N' :: ' ' :: '(' ::
        ((("1,2,3,4,5,6,7,8,9,10,11").data) ++ ')' :: []) :=
  ⟨by decide, by decide,
    (c1_threshold_boundary _ _ _ (by decide) (by decide) (by decide) (by decide)).1
      (by decide),
    ((c1_threshold_boundary _ _ _ (by decide) (by decide) (by decide) (by decide)).2
      (by decide)).2⟩

theorem c2_truncation_shape_witness :
    smartTruncateQueryL
      (("WHERE a ").data ++ 'I' :: 'N' :: ' ' :: '(' ::
        ((("1,2,3,4,5,6,7,8,9,10,11").data) ++ ')' ::
        ((" AND b ").data ++ 'I' :: 'N' :: ' ' :: '(' ::
          ((("1,2,3,4,5,6,7,8,9,10,11,12").data) ++ ')' :: [])))) =
      ("WHERE a ").data ++ ('I' :: 'N' :: ' ' :: '(' ::
          (midOf ((splitOnCommaL (("1,2,3,4,5,6,7,8,9,10,11").data)).map trimL) ++ [')']) ++
        ((" AND b ").data ++ ('I' :: 'N' :: ' ' :: '(' ::
          (midOf ((splitOnCommaL (("1,2,3,4,5,6,7,8,9,10,11,12").data)).map trimL) ++ [')']) ++
          []))) :=
  c2_truncation_shape _ _ _ _ _ (by decide) (by decide) (by decide) (by decide)
    (by decide) (by decide) (by decide) (by decide) (by decide)

end SqlFmt
